import Mathlib

/-!
Verification of the Sales-Training-Chatbot-RAG core pipeline.

Sections, in order:
1. Segmenter: `chunk_text` from `src/utils.py`, embedded with an explicit
   fuel parameter so that the (non-)termination of the Python `while` loop
   is itself expressible.
2. Orchestrator: `SalesCopilot.answer_question` / `summarise_call` from
   `src/copilot.py` (textually the same logic as the module-level
   `answer_question` / `summarise_call` in `src/generation.py`, which differ
   only in how the search and generate collaborators are obtained; both are
   parametrized here).
3. Generation backend selection: `_get_provider_info` / `_ensure_client` /
   `_call_llm` from `src/generation.py`.
4. Storage: a model of the ChromaDB collection and the functions of
   `src/storage.py`.
-/

/-! ### 1. Segmenter (`src/utils.py`) -/

/-- One element of the list returned by `chunk_text`: the dict
`{"text": ..., "start": ..., "end": ...}` built on line 29 of utils.py. -/
structure Chunk where
  text : List Char
  start : Nat
  «end» : Nat
deriving Repr, DecidableEq

/-- Python slice `text[s:e]` (for `s ≤ e ≤ len`). -/
def pySlice (l : List Char) (s e : Nat) : List Char := (l.drop s).take (e - s)

/-- `sub` occurs in `text` at position `i`. -/
def matchesAt (text sub : List Char) (i : Nat) : Bool :=
  (text.drop i).take sub.length == sub

/-- Helper for `rfind`: scan indices `n-1, n-2, ...` downward and return the
first (hence highest) index at which `sub` occurs inside `text[s:e]`,
or `-1` when there is none. -/
def rfindFrom (text sub : List Char) (s e : Nat) : Nat → Int
  | 0 => -1
  | n+1 =>
    if s ≤ n ∧ n + sub.length ≤ e ∧ matchesAt text sub n then (n : Int)
    else rfindFrom text sub s e n

/-- Python `text.rfind(sub, s, e)`: the highest index `i` with `s ≤ i`,
`i + len(sub) ≤ e` and `text[i : i+len(sub)] == sub`, else `-1`. -/
def rfind (text sub : List Char) (s e : Nat) : Int := rfindFrom text sub s e e

/-- `max(text.rfind("\n", start, end), text.rfind(". ", start, end))`
(utils.py lines 23-26). -/
def boundaryOf (text : List Char) (s e : Nat) : Int :=
  max (rfind text ['\n'] s e) (rfind text ['.', ' '] s e)

/-- The value of `end` after lines 20-28 of utils.py: the tentative window
end `min(start + chunk_size, len(text))`, snapped back to just past the last
sentence/line boundary when that boundary lies strictly after
`start + overlap`. -/
def computeEnd (text : List Char) (cs ov start : Nat) : Nat :=
  if min (start + cs) text.length < text.length then
    if boundaryOf text start (min (start + cs) text.length) > ((start + ov : Nat) : Int) then
      (boundaryOf text start (min (start + cs) text.length)).toNat + 1
    else min (start + cs) text.length
  else min (start + cs) text.length

/-- The `while start < len(text)` loop of `chunk_text` (utils.py lines
19-30), with an explicit fuel bound: `none` means the loop did not finish
within `fuel` iterations. -/
def chunkLoop (text : List Char) (cs ov : Nat) : Nat → Nat → Option (List Chunk)
  | 0, start => if start < text.length then none else some []
  | fuel+1, start =>
    if start < text.length then
      let e := computeEnd text cs ov start
      (chunkLoop text cs ov fuel (if e < text.length then e - ov else e)).map
        (fun rest => ⟨pySlice text start e, start, e⟩ :: rest)
    else some []

/-- `chunk_text(text, chunk_size, overlap)` from utils.py lines 8-31.
The loop advances `start` by at least one position per iteration whenever
it terminates at all, so `text.length + 1` units of fuel are sufficient for
every terminating run; `none` therefore means the Python loop runs forever. -/
def chunk_text (text : List Char) (cs ov : Nat) : Option (List Chunk) :=
  if text.isEmpty then some []
  else chunkLoop text cs ov (text.length + 1) 0

theorem rfindFrom_add_le (text sub : List Char) (s e : Nat) (n : Nat)
    (h : 0 ≤ rfindFrom text sub s e n) :
    (rfindFrom text sub s e n).toNat + sub.length ≤ e := by
  induction n with
  | zero => simp only [rfindFrom] at h; omega
  | succ n ih =>
    simp only [rfindFrom] at h ⊢
    split
    · next hc => simpa using hc.2.1
    · next hc => rw [if_neg hc] at h; exact ih h

theorem boundaryOf_add_one_le (text : List Char) (s e : Nat)
    (h : 0 ≤ boundaryOf text s e) : (boundaryOf text s e).toNat + 1 ≤ e := by
  unfold boundaryOf rfind at h ⊢
  rcases max_choice (rfindFrom text ['\n'] s e e) (rfindFrom text ['.', ' '] s e e) with hm | hm <;>
      rw [hm] at h ⊢
  · have h2 := rfindFrom_add_le text ['\n'] s e e h
    simp only [List.length_cons, List.length_nil] at h2
    omega
  · have h2 := rfindFrom_add_le text ['.', ' '] s e e h
    simp only [List.length_cons, List.length_nil] at h2
    omega

theorem computeEnd_le_len (text : List Char) (cs ov start : Nat) :
    computeEnd text cs ov start ≤ text.length := by
  unfold computeEnd
  split
  · next h0 =>
    split
    · next hb =>
      have hnn : 0 ≤ boundaryOf text start (min (start + cs) text.length) := by
        have : ((0 : Nat) : Int) ≤ ((start + ov : Nat) : Int) := by
          exact_mod_cast Nat.zero_le _
        omega
      have := boundaryOf_add_one_le text start (min (start + cs) text.length) hnn
      omega
    · exact min_le_right _ _
  · exact min_le_right _ _

theorem computeEnd_le_start_add (text : List Char) (cs ov start : Nat) :
    computeEnd text cs ov start ≤ start + cs := by
  unfold computeEnd
  split
  · next h0 =>
    split
    · next hb =>
      have hnn : 0 ≤ boundaryOf text start (min (start + cs) text.length) := by
        have : ((0 : Nat) : Int) ≤ ((start + ov : Nat) : Int) := by
          exact_mod_cast Nat.zero_le _
        omega
      have := boundaryOf_add_one_le text start (min (start + cs) text.length) hnn
      have := min_le_left (start + cs) text.length
      omega
    · exact min_le_left _ _
  · exact min_le_left _ _

theorem lt_computeEnd (text : List Char) (cs ov start : Nat) (hcs : 0 < cs)
    (hstart : start < text.length) : start < computeEnd text cs ov start := by
  unfold computeEnd
  split
  · next h0 =>
    split
    · next hb =>
      have : ((start + ov : Nat) : Int) < boundaryOf text start (min (start + cs) text.length) := hb
      have : (start : Int) ≤ ((start + ov : Nat) : Int) := by exact_mod_cast Nat.le_add_right _ _
      omega
    · next hb => omega
  · next h0 => omega

theorem computeEnd_gt_of_lt_len (text : List Char) (cs ov start : Nat) (hcs : ov < cs)
    (hlt : computeEnd text cs ov start < text.length) :
    start + ov < computeEnd text cs ov start := by
  unfold computeEnd at hlt ⊢
  split
  · next h0 =>
    split
    · next hb =>
      have hb' : ((start + ov : Nat) : Int) < boundaryOf text start (min (start + cs) text.length) := hb
      omega
    · next hb => omega
  · next h0 =>
    rw [if_neg h0] at hlt
    omega

/-- The next value of `start` computed on line 30 of utils.py. -/
def nextStart (text : List Char) (cs ov start : Nat) : Nat :=
  if computeEnd text cs ov start < text.length then computeEnd text cs ov start - ov
  else computeEnd text cs ov start

theorem nextStart_le_len (text : List Char) (cs ov start : Nat) :
    nextStart text cs ov start ≤ text.length := by
  unfold nextStart
  have := computeEnd_le_len text cs ov start
  split <;> omega

theorem lt_nextStart (text : List Char) (cs ov start : Nat) (hcs : ov < cs)
    (hstart : start < text.length) : start < nextStart text cs ov start := by
  unfold nextStart
  split
  · next h =>
    have := computeEnd_gt_of_lt_len text cs ov start hcs h
    omega
  · next h =>
    have h1 := lt_computeEnd text cs ov start (by omega) hstart
    omega

theorem chunkLoop_of_le (text : List Char) (cs ov : Nat) (fuel start : Nat)
    (h : text.length ≤ start) : chunkLoop text cs ov fuel start = some [] := by
  cases fuel <;> simp [chunkLoop, Nat.not_lt.mpr h]

/-- With valid parameters the loop advances by at least one character per
iteration, so `len - start` fuel always suffices. -/
theorem chunkLoop_isSome (text : List Char) (cs ov : Nat) (hcs : ov < cs) :
    ∀ fuel start, text.length ≤ start + fuel → (chunkLoop text cs ov fuel start).isSome := by
  intro fuel
  induction fuel with
  | zero =>
    intro start h
    rw [chunkLoop_of_le text cs ov 0 start (by omega)]
    rfl
  | succ fuel ih =>
    intro start h
    by_cases hs : start < text.length
    · have hadv := lt_nextStart text cs ov start hcs hs
      have hrec := ih (nextStart text cs ov start) (by unfold nextStart at hadv ⊢; omega)
      simp only [chunkLoop, if_pos hs]
      unfold nextStart at hrec
      rcases Option.isSome_iff_exists.mp hrec with ⟨v, hv⟩
      rw [hv]
      rfl
    · simp [chunkLoop, hs]

/-- Every chunk the loop emits is well-formed: it starts no earlier than the
cursor, is nonempty, ends within the text, spans at most `chunk_size`
characters, and its text is the corresponding slice. -/
theorem chunkLoop_sound (text : List Char) (cs ov : Nat) (hcs : ov < cs) :
    ∀ fuel start l, chunkLoop text cs ov fuel start = some l →
      ∀ c ∈ l, start ≤ c.start ∧ c.start < c.«end» ∧ c.«end» ≤ text.length ∧
        c.«end» - c.start ≤ cs ∧ c.text = pySlice text c.start c.«end» := by
  intro fuel
  induction fuel with
  | zero =>
    intro start l hl c hc
    by_cases hs : start < text.length
    · simp [chunkLoop, hs] at hl
    · simp [chunkLoop, hs] at hl
      subst hl
      simp at hc
  | succ fuel ih =>
    intro start l hl c hc
    by_cases hs : start < text.length
    · simp only [chunkLoop, if_pos hs, Option.map_eq_some'] at hl
      obtain ⟨rest, hrest, hl⟩ := hl
      subst hl
      rcases List.mem_cons.mp hc with hc | hc
      · subst hc
        refine ⟨Nat.le_refl _, ?_, ?_, ?_, rfl⟩
        · exact lt_computeEnd text cs ov start (by omega) hs
        · exact computeEnd_le_len text cs ov start
        · show computeEnd text cs ov start - start ≤ cs
          have := computeEnd_le_start_add text cs ov start
          omega
      · have hrec := ih _ rest hrest c hc
        have hadv := lt_nextStart text cs ov start hcs hs
        unfold nextStart at hadv
        exact ⟨by omega, hrec.2⟩
    · simp [chunkLoop, hs] at hl
      subst hl
      simp at hc

/-- Every character position from the cursor to the end of the text is
covered by some emitted chunk. -/
theorem chunkLoop_cover (text : List Char) (cs ov : Nat) :
    ∀ fuel start l, chunkLoop text cs ov fuel start = some l →
      ∀ k, start ≤ k → k < text.length → ∃ c ∈ l, c.start ≤ k ∧ k < c.«end» := by
  intro fuel
  induction fuel with
  | zero =>
    intro start l hl k hk1 hk2
    have hs : start < text.length := by omega
    simp [chunkLoop, hs] at hl
  | succ fuel ih =>
    intro start l hl k hk1 hk2
    have hs : start < text.length := by omega
    simp only [chunkLoop, if_pos hs, Option.map_eq_some'] at hl
    obtain ⟨rest, hrest, hl⟩ := hl
    subst hl
    by_cases hke : k < computeEnd text cs ov start
    · exact ⟨_, List.mem_cons_self _ _, hk1, hke⟩
    · have hlt : computeEnd text cs ov start < text.length := by omega
      rw [if_pos hlt] at hrest
      have hnk : computeEnd text cs ov start - ov ≤ k := by omega
      obtain ⟨c, hcmem, hc⟩ := ih _ rest hrest k hnk hk2
      exact ⟨c, List.mem_cons_of_mem _ hcmem, hc⟩

/-- C1: for every text and parameters with `chunk_size > overlap ≥ 0`,
`chunk_text` terminates and the union of the half-open `[start, end)`
intervals of the returned chunks is exactly the set of character offsets
`{0, ..., len(text) - 1}` of the text. -/
theorem chunk_text_full_coverage (text : List Char) (cs ov : Nat) (hov : ov < cs) :
    ∃ l, chunk_text text cs ov = some l ∧
      ∀ k, k < text.length ↔ ∃ c ∈ l, c.start ≤ k ∧ k < c.«end» := by
  unfold chunk_text
  by_cases hemp : text.isEmpty
  · refine ⟨[], by rw [if_pos hemp], ?_⟩
    intro k
    rw [List.isEmpty_iff_length_eq_zero] at hemp
    simp [hemp]
  · rw [if_neg hemp]
    have hsome := chunkLoop_isSome text cs ov hov (text.length + 1) 0 (by omega)
    rcases Option.isSome_iff_exists.mp hsome with ⟨l, hl⟩
    refine ⟨l, hl, fun k => ⟨fun hk => ?_, fun ⟨c, hcmem, hc⟩ => ?_⟩⟩
    · exact chunkLoop_cover text cs ov _ 0 l hl k (Nat.zero_le k) hk
    · have := chunkLoop_sound text cs ov hov _ 0 l hl c hcmem
      omega

/-- Witness for C1 at a concrete input. -/
theorem chunk_text_full_coverage_witness :
    ∃ l, chunk_text "ab. cd. ef".toList 6 1 = some l ∧
      ∀ k, k < "ab. cd. ef".toList.length ↔ ∃ c ∈ l, c.start ≤ k ∧ k < c.«end» :=
  chunk_text_full_coverage "ab. cd. ef".toList 6 1 (by decide)

/-- C9: every chunk emitted by `chunk_text` under valid parameters has its
`text` equal to the slice `text[start:end]`, satisfies
`start < end ≤ len(text)` (no chunk is empty), and spans at most
`chunk_size` characters (boundary snapping only shrinks a window). -/
theorem chunk_text_chunks_wf (text : List Char) (cs ov : Nat) (hov : ov < cs)
    (l : List Chunk) (hl : chunk_text text cs ov = some l) :
    ∀ c ∈ l, c.text = pySlice text c.start c.«end» ∧ c.start < c.«end» ∧
      c.«end» ≤ text.length ∧ c.«end» - c.start ≤ cs := by
  intro c hc
  unfold chunk_text at hl
  by_cases hemp : text.isEmpty
  · rw [if_pos hemp] at hl
    obtain rfl : ([] : List Chunk) = l := by simpa using hl
    simp at hc
  · rw [if_neg hemp] at hl
    have := chunkLoop_sound text cs ov hov _ 0 l hl c hc
    exact ⟨this.2.2.2.2, this.2.1, this.2.2.1, this.2.2.2.1⟩

/-- Witness for C9 at a concrete input and a concrete emitted chunk. -/
theorem chunk_text_chunks_wf_witness :
    (Chunk.mk ['h', 'i'] 0 2).text =
        pySlice ['h', 'i'] (Chunk.mk ['h', 'i'] 0 2).start (Chunk.mk ['h', 'i'] 0 2).«end» ∧
      (Chunk.mk ['h', 'i'] 0 2).start < (Chunk.mk ['h', 'i'] 0 2).«end» ∧
      (Chunk.mk ['h', 'i'] 0 2).«end» ≤ (['h', 'i'] : List Char).length ∧
      (Chunk.mk ['h', 'i'] 0 2).«end» - (Chunk.mk ['h', 'i'] 0 2).start ≤ 3 :=
  chunk_text_chunks_wf ['h', 'i'] 3 1 (by decide) [Chunk.mk ['h', 'i'] 0 2] (by decide)
    (Chunk.mk ['h', 'i'] 0 2) (by decide)

/-- C7: under valid parameters, a text no longer than `chunk_size` yields
exactly one chunk spanning the whole text, and the empty text yields the
empty chunk list. -/
theorem chunk_text_single_chunk (text : List Char) (cs ov : Nat) (hov : ov < cs)
    (hlen : text.length ≤ cs) :
    chunk_text text cs ov = some (if text = [] then [] else [⟨text, 0, text.length⟩]) := by
  unfold chunk_text
  by_cases hemp : text = []
  · subst hemp
    rfl
  · have hne : ¬ text.isEmpty := by
      simpa [List.isEmpty_iff] using hemp
    rw [if_neg hne, if_neg hemp]
    have hpos : 0 < text.length := List.length_pos.mpr hemp
    have hce : computeEnd text cs ov 0 = text.length := by
      unfold computeEnd
      have : min (0 + cs) text.length = text.length := by
        apply min_eq_right
        omega
      rw [this]
      simp
    simp only [chunkLoop, if_pos hpos, hce]
    rw [if_neg (lt_irrefl text.length)]
    rw [chunkLoop_of_le text cs ov _ _ (Nat.le_refl _)]
    simp [pySlice]

/-- Witness for C7 at a concrete input. -/
theorem chunk_text_single_chunk_witness :
    chunk_text ['h', 'i'] 3 1 =
      some (if (['h', 'i'] : List Char) = [] then [] else [⟨['h', 'i'], 0, 2⟩]) :=
  chunk_text_single_chunk ['h', 'i'] 3 1 (by decide) (by decide)

/-- C2 (code behaviour at the failing input): with `overlap = chunk_size = 1`
and the two-character text `"ab"`, the `while` loop of `chunk_text` never
advances its cursor past 0, so it completes within no finite fuel bound:
the Python code iterates indefinitely instead of rejecting, clamping, or
terminating with an error. -/
theorem chunk_text_loops_forever :
    ∀ fuel, chunkLoop ['a', 'b'] 1 1 fuel 0 = none := by
  intro fuel
  induction fuel with
  | zero => rfl
  | succ fuel ih =>
    have hce : computeEnd ['a', 'b'] 1 1 0 = 1 := by decide
    have hns : (if computeEnd ['a', 'b'] 1 1 0 < (['a', 'b'] : List Char).length
        then computeEnd ['a', 'b'] 1 1 0 - 1 else computeEnd ['a', 'b'] 1 1 0) = 0 := by
      rw [hce]
      rfl
    simp only [chunkLoop, hns]
    rw [ih]
    rfl

/-! ### 2. Data model (`src/models.py`) and orchestrator (`src/copilot.py`)

`SalesCopilot.answer_question` / `SalesCopilot.summarise_call` in
`src/copilot.py` and the module-level `answer_question` / `summarise_call`
in `src/generation.py` have textually identical logic; they differ only in
where the search and generation collaborators come from (an injected
`VectorStore`/`LLMProvider` versus module functions).  Both are modelled
here by parametrizing over the two collaborators.  The second component of
each result is the list of generation-backend invocations performed, so
that "the backend is never invoked" is expressible (the spec itself words
this as "observable via a test double asserting zero calls"). -/

/-- `TranscriptChunk` from src/models.py. -/
structure TranscriptChunk where
  chunk_id : String
  call_id : String
  call_title : String
  chunk_index : Nat
  text : String
  start_char : Nat
  end_char : Nat
deriving Repr, DecidableEq

/-- `SearchResult` from src/models.py (`distance` is a pass-through score,
modelled as a rational). -/
structure SearchResult where
  chunk : TranscriptChunk
  distance : ℚ
deriving Repr, DecidableEq

/-- `QueryResponse` from src/models.py. -/
structure QueryResponse where
  answer : String
  sources : List SearchResult
deriving Repr, DecidableEq

/-- One call to `LLMProvider.generate_content(system_prompt, user_prompt,
temperature)` (src/interfaces.py), as recorded by the instrumented model. -/
structure ProviderCall where
  system_prompt : String
  user_prompt : String
  temperature : ℚ
deriving Repr, DecidableEq

/-- Python `enumerate(l, start)`. -/
def enumerateFrom {α : Type} (start : Nat) : List α → List (Nat × α)
  | [] => []
  | a :: l => (start, a) :: enumerateFrom (start + 1) l

theorem enumerateFrom_length {α : Type} (s : Nat) (l : List α) :
    (enumerateFrom s l).length = l.length := by
  induction l generalizing s with
  | nil => rfl
  | cons a t ih => simp [enumerateFrom, ih]

theorem enumerateFrom_get {α : Type} (s : Nat) (l : List α) (i : Nat)
    (h1 : i < (enumerateFrom s l).length) (h2 : i < l.length) :
    (enumerateFrom s l).get ⟨i, h1⟩ = (s + i, l.get ⟨i, h2⟩) := by
  induction l generalizing s i with
  | nil => simp at h2
  | cons a t ih =>
    cases i with
    | zero => simp [enumerateFrom]
    | succ i =>
      have h1' : i < (enumerateFrom (s + 1) t).length := by
        simp only [enumerateFrom, List.length_cons] at h1
        omega
      have h2' : i < t.length := by simp at h2; omega
      show (enumerateFrom (s + 1) t).get ⟨i, h1'⟩ = _
      rw [ih (s + 1) i h1' h2']
      show (s + 1 + i, t.get ⟨i, h2'⟩) = (s + (i + 1), t.get ⟨i, h2'⟩)
      rw [Nat.add_comm i 1, ← Nat.add_assoc]

/-- Python `str.strip()`: remove whitespace from both ends of a string. -/
def pyStrip (s : String) : String :=
  String.mk (((s.data.dropWhile Char.isWhitespace).reverse.dropWhile
    Char.isWhitespace).reverse)

/-- The per-result entry of the numbered context block built by
`_format_context` (copilot.py lines 13-17 / generation.py lines 69-73). -/
def sourceHeaderLine (i : Nat) (r : SearchResult) : String :=
  "[Source " ++ toString i ++ " | Call: " ++ r.chunk.call_title ++
    " | Chunk #" ++ toString r.chunk.chunk_index ++ "]\n" ++ pyStrip r.chunk.text

/-- The entries of the context block, numbered from 1, in result order. -/
def context_lines (results : List SearchResult) : List String :=
  (enumerateFrom 1 results).map (fun p => sourceHeaderLine p.1 p.2)

/-- `_format_context(results)` (copilot.py lines 10-18 / generation.py
lines 66-74): the numbered entries joined by the delimiter. -/
def format_context (results : List SearchResult) : String :=
  String.intercalate "\n\n---\n\n" (context_lines results)

/-- The fixed system prompt of `answer_question`. -/
def QA_SYSTEM_PROMPT : String :=
  "You are a sales-call analyst AI. Your job is to answer using ONLY the transcript excerpts provided. Cite facts using [Source N]."

/-- The user message of `answer_question`, embedding the context block and
the verbatim question. -/
def qa_user_msg (context query : String) : String :=
  "### Transcript Excerpts\n" ++ context ++ "\n\n### Question\n" ++ query ++
    "\n\nProvide a clear, direct answer and reference every specific claim with [Source N] where N matches the excerpt number above."

/-- The fixed fallback answer returned when search yields no results. -/
def NO_RESULTS_ANSWER : String :=
  "I could not find any relevant information in the stored transcripts."

/-- `SalesCopilot.answer_question` (copilot.py lines 25-44), equivalently
`answer_question` (generation.py lines 115-133), parametrized by the
search collaborator and the generation backend.  Returns the
`QueryResponse` together with the list of generation calls performed. -/
def answer_question (search : String → Option String → Nat → List SearchResult)
    (generate_content : String → String → ℚ → String)
    (query : String) (call_id : Option String) (top_k : Nat) :
    QueryResponse × List ProviderCall :=
  if (search query call_id top_k).isEmpty then
    (⟨NO_RESULTS_ANSWER, []⟩, [])
  else
    (⟨generate_content QA_SYSTEM_PROMPT
        (qa_user_msg (format_context (search query call_id top_k)) query) (2/10),
      search query call_id top_k⟩,
     [⟨QA_SYSTEM_PROMPT,
       qa_user_msg (format_context (search query call_id top_k)) query, 2/10⟩])

/-- The fixed "no transcript" answer of `summarise_call`, naming the
call_id. -/
def NO_TRANSCRIPT_ANSWER (call_id : String) : String :=
  "No transcript found for \x27" ++ call_id ++ "\x27."

/-- The fixed system prompt of `summarise_call`. -/
def SUMMARY_SYSTEM_PROMPT : String :=
  "You are an expert sales-call analyst. Summarise the transcript with: Overview, Key Discussion Points, Sentiment/Objections, Next Steps, and Pricing."

/-- The user message of `summarise_call`. -/
def summary_user_msg (transcript : String) : String :=
  "### Call Transcript\n" ++ transcript ++ "\n\nProduce the structured summary as instructed."

/-- `_format_full_transcript` (copilot.py lines 20-23 / generation.py lines
77-80): join all stored chunk texts with a line separator. -/
def format_full_transcript (get_all_chunks : String → List TranscriptChunk)
    (call_id : String) : String :=
  String.intercalate "\n" ((get_all_chunks call_id).map (fun c => c.text))

/-- `SalesCopilot.summarise_call` (copilot.py lines 46-55), equivalently
`summarise_call` (generation.py lines 136-145), parametrized like
`answer_question`. -/
def summarise_call (get_all_chunks : String → List TranscriptChunk)
    (generate_content : String → String → ℚ → String) (call_id : String) :
    QueryResponse × List ProviderCall :=
  if pyStrip (format_full_transcript get_all_chunks call_id) = "" then
    (⟨NO_TRANSCRIPT_ANSWER call_id, []⟩, [])
  else
    (⟨generate_content SUMMARY_SYSTEM_PROMPT
        (summary_user_msg (format_full_transcript get_all_chunks call_id)) (3/10), []⟩,
     [⟨SUMMARY_SYSTEM_PROMPT,
       summary_user_msg (format_full_transcript get_all_chunks call_id), 3/10⟩])

/-- C5: whenever the underlying search returns no results, `answer_question`
returns the fixed fallback answer with an empty source list and performs no
generation-backend call at all. -/
theorem answer_question_empty_results
    (search : String → Option String → Nat → List SearchResult)
    (generate_content : String → String → ℚ → String)
    (query : String) (call_id : Option String) (top_k : Nat)
    (h : search query call_id top_k = []) :
    answer_question search generate_content query call_id top_k =
      (⟨NO_RESULTS_ANSWER, []⟩, []) := by
  unfold answer_question
  rw [h]
  rfl

/-- Witness for C5 at a concrete input. -/
theorem answer_question_empty_results_witness :
    answer_question (fun _ _ _ => []) (fun _ _ _ => "generated") "any question" none 5 =
      (⟨NO_RESULTS_ANSWER, []⟩, []) :=
  answer_question_empty_results (fun _ _ _ => []) (fun _ _ _ => "generated")
    "any question" none 5 rfl

/-- C6: whenever the stored chunks of a call reconstruct to an empty or
whitespace-only transcript (in particular when no chunk is stored),
`summarise_call` returns the fixed "no transcript found" answer naming the
call_id, with empty sources, and performs no generation-backend call. -/
theorem summarise_call_no_transcript
    (get_all_chunks : String → List TranscriptChunk)
    (generate_content : String → String → ℚ → String) (call_id : String)
    (h : pyStrip (format_full_transcript get_all_chunks call_id) = "") :
    summarise_call get_all_chunks generate_content call_id =
      (⟨NO_TRANSCRIPT_ANSWER call_id, []⟩, []) := by
  unfold summarise_call
  rw [if_pos h]

/-- Witness for C6 at a concrete input: a call with zero stored chunks. -/
theorem summarise_call_no_transcript_witness :
    summarise_call (fun _ => []) (fun _ _ _ => "generated") "demo_call" =
      (⟨NO_TRANSCRIPT_ANSWER "demo_call", []⟩, []) :=
  summarise_call_no_transcript (fun _ => []) (fun _ _ _ => "generated") "demo_call" rfl

/-- C8: whenever the underlying search returns a non-empty result list,
`answer_question` returns the generation backend's output verbatim as the
answer, attaches the original ranked results in their original order as
`sources` (regardless of what the generated text cites, since the answer is
whatever the backend function returns), makes exactly one backend call with
the assembled prompts, and the context block entries are numbered 1-based
in result order. -/
theorem answer_question_nonempty_results
    (search : String → Option String → Nat → List SearchResult)
    (generate_content : String → String → ℚ → String)
    (query : String) (call_id : Option String) (top_k : Nat)
    (h : search query call_id top_k ≠ []) :
    (answer_question search generate_content query call_id top_k).1.answer =
      generate_content QA_SYSTEM_PROMPT
        (qa_user_msg (format_context (search query call_id top_k)) query) (2/10) ∧
    (answer_question search generate_content query call_id top_k).1.sources =
      search query call_id top_k ∧
    (answer_question search generate_content query call_id top_k).2 =
      [⟨QA_SYSTEM_PROMPT,
        qa_user_msg (format_context (search query call_id top_k)) query, 2/10⟩] ∧
    (context_lines (search query call_id top_k)).length =
      (search query call_id top_k).length ∧
    ∀ i (hi : i < (search query call_id top_k).length)
        (hi2 : i < (context_lines (search query call_id top_k)).length),
      (context_lines (search query call_id top_k)).get ⟨i, hi2⟩ =
        sourceHeaderLine (i + 1) ((search query call_id top_k).get ⟨i, hi⟩) := by
  have hie : (search query call_id top_k).isEmpty = false := by
    cases hsr : search query call_id top_k with
    | nil => exact absurd hsr h
    | cons a t => rfl
  refine ⟨?_, ?_, ?_, ?_, ?_⟩
  · simp [answer_question, hie]
  · simp [answer_question, hie]
  · simp [answer_question, hie]
  · simp [context_lines, enumerateFrom_length]
  · intro i hi hi2
    unfold context_lines at hi2 ⊢
    have h3 : i < (enumerateFrom 1 (search query call_id top_k)).length := by
      rw [enumerateFrom_length]
      exact hi
    rw [List.get_eq_getElem, List.getElem_map, ← List.get_eq_getElem _ ⟨i, h3⟩,
      enumerateFrom_get 1 _ i h3 hi]
    rw [Nat.add_comm 1 i]

/-- Witness for C8 at a concrete input: one search result. -/
theorem answer_question_nonempty_results_witness :
    (answer_question
        (fun _ _ _ => [⟨⟨"c1__0", "c1", "Call One", 0, "Hello there", 0, 11⟩, 1/2⟩])
        (fun _ _ _ => "generated") "what was said" none 5).1.answer =
      (fun _ _ _ => "generated" : String → String → ℚ → String) QA_SYSTEM_PROMPT
        (qa_user_msg (format_context
          [⟨⟨"c1__0", "c1", "Call One", 0, "Hello there", 0, 11⟩, 1/2⟩]) "what was said")
        (2/10) ∧
    (answer_question
        (fun _ _ _ => [⟨⟨"c1__0", "c1", "Call One", 0, "Hello there", 0, 11⟩, 1/2⟩])
        (fun _ _ _ => "generated") "what was said" none 5).1.sources =
      [⟨⟨"c1__0", "c1", "Call One", 0, "Hello there", 0, 11⟩, 1/2⟩] ∧
    (answer_question
        (fun _ _ _ => [⟨⟨"c1__0", "c1", "Call One", 0, "Hello there", 0, 11⟩, 1/2⟩])
        (fun _ _ _ => "generated") "what was said" none 5).2 =
      [⟨QA_SYSTEM_PROMPT,
        qa_user_msg (format_context
          [⟨⟨"c1__0", "c1", "Call One", 0, "Hello there", 0, 11⟩, 1/2⟩]) "what was said",
        2/10⟩] ∧
    (context_lines [⟨⟨"c1__0", "c1", "Call One", 0, "Hello there", 0, 11⟩, 1/2⟩]).length =
      ([⟨⟨"c1__0", "c1", "Call One", 0, "Hello there", 0, 11⟩, 1/2⟩] :
        List SearchResult).length ∧
    ∀ i (hi : i < ([⟨⟨"c1__0", "c1", "Call One", 0, "Hello there", 0, 11⟩, 1/2⟩] :
          List SearchResult).length)
        (hi2 : i < (context_lines
          [⟨⟨"c1__0", "c1", "Call One", 0, "Hello there", 0, 11⟩, 1/2⟩]).length),
      (context_lines [⟨⟨"c1__0", "c1", "Call One", 0, "Hello there", 0, 11⟩, 1/2⟩]).get
          ⟨i, hi2⟩ =
        sourceHeaderLine (i + 1)
          (([⟨⟨"c1__0", "c1", "Call One", 0, "Hello there", 0, 11⟩, 1/2⟩] :
            List SearchResult).get ⟨i, hi⟩) :=
  answer_question_nonempty_results
    (fun _ _ _ => [⟨⟨"c1__0", "c1", "Call One", 0, "Hello there", 0, 11⟩, 1/2⟩])
    (fun _ _ _ => "generated") "what was said" none 5 (by simp)

/-! ### 3. Generation backend selection (`src/generation.py` lines 10-108)

The module keeps a lazily-initialized client in module-level globals
`_client` / `_model_name` (lines 10-12); `_ensure_client` builds it on
first use and `_call_llm` is the only caller.  The environment is modelled
as a record of the environment variables the module reads. -/

/-- Python `str.lower()` (ASCII case folding is all the code relies on). -/
def pyLower (s : String) : String := String.mk (s.data.map Char.toLower)

/-- The environment variables read by generation.py. -/
structure GenEnv where
  LLM_PROVIDER : Option String
  OPENAI_MODEL : Option String
  OPENAI_API_KEY : Option String
  GROQ_MODEL : Option String
  GROQ_API_KEY : Option String
  OLLAMA_MODEL : Option String
  OLLAMA_BASE_URL : Option String
  GEMINI_MODEL : Option String
  GEMINI_API_KEY : Option String
deriving Repr, DecidableEq

/-- `os.getenv("LLM_PROVIDER", "openai").lower()` (generation.py line 16). -/
def providerOf (env : GenEnv) : String := pyLower (env.LLM_PROVIDER.getD "openai")

/-- The concrete client object built by `_ensure_client` (lines 47-57):
an `OpenAI(...)` instance (plain, Groq-pointed or Ollama-pointed,
distinguished by `base_url`) or a `genai.Client(...)` instance. -/
inductive LLMClient where
  | OpenAIClient (api_key : String) (base_url : Option String)
  | GeminiClient (api_key : String)
deriving Repr, DecidableEq

/-- The module-level globals `_client` and `_model_name` of generation.py. -/
structure GenState where
  client : Option LLMClient
  model_name : Option String
deriving Repr, DecidableEq

/-- Module import (construction) time: generation.py lines 10-12 only set
`_client = None` and `_model_name = None`; no environment value is read and
no validation of any kind happens at this point. -/
def genModuleInit : GenState := { client := none, model_name := none }

/-- Python falsiness of an optional string (`if not key`). -/
def falsyKey (k : Option String) : Prop := k = none ∨ k = some ""

instance (k : Option String) : Decidable (falsyKey k) := by
  unfold falsyKey
  infer_instance

/-- `_get_provider_info()` (generation.py lines 14-33): resolve provider,
model and key from the environment; unknown providers raise
`ValueError(f"Unsupported LLM_PROVIDER: {provider}")`. -/
def get_provider_info (env : GenEnv) : Except String (String × String × Option String) :=
  if providerOf env = "openai" then
    Except.ok (providerOf env, env.OPENAI_MODEL.getD "gpt-4o-mini", env.OPENAI_API_KEY)
  else if providerOf env = "groq" then
    Except.ok (providerOf env, env.GROQ_MODEL.getD "llama-3.3-70b-versatile", env.GROQ_API_KEY)
  else if providerOf env = "ollama" then
    Except.ok (providerOf env, env.OLLAMA_MODEL.getD "llama3", some "ollama")
  else if providerOf env = "gemini" then
    Except.ok (providerOf env, env.GEMINI_MODEL.getD "gemini-1.5-flash-latest", env.GEMINI_API_KEY)
  else Except.error ("Unsupported LLM_PROVIDER: " ++ providerOf env)

/-- `_ensure_client()` (generation.py lines 35-59): return the cached
client if present; otherwise resolve the provider info, reject a falsy key
for every provider except ollama, build the client and cache it.
(The code also assigns `_model_name = model` before the key check; on the
error path that assignment is unobservable because the exception aborts the
request, so the model keeps the state update only on the success path.) -/
def ensure_client (env : GenEnv) (st : GenState) :
    Except String (GenState × LLMClient × Option String × String) :=
  match st.client with
  | some c => Except.ok (st, c, st.model_name, providerOf env)
  | none =>
    match get_provider_info env with
    | Except.error msg => Except.error msg
    | Except.ok (provider, model, key) =>
      if falsyKey key ∧ provider ≠ "ollama" then
        Except.error ("Missing API key for provider \x27" ++ provider ++
          "\x27. Please check your .env file.")
      else
        let client :=
          if provider = "openai" then LLMClient.OpenAIClient (key.getD "") none
          else if provider = "groq" then
            LLMClient.OpenAIClient (key.getD "") (some "https://api.groq.com/openai/v1")
          else if provider = "ollama" then
            LLMClient.OpenAIClient "ollama"
              (some (env.OLLAMA_BASE_URL.getD "http://localhost:11434/v1"))
          else LLMClient.GeminiClient (key.getD "")
        Except.ok ({ client := some client, model_name := some model },
          client, some model, provider)

/-- One network request issued to a provider by `_call_llm`
(generation.py lines 87-106): an OpenAI-style chat-completions request or a
Gemini `generate_content` request. -/
inductive LLMRequest where
  | chatCompletions (model : Option String) (system user : String) (temperature : ℚ)
  | generateContent (model : Option String) (contents : String) (temperature : ℚ)
deriving Repr, DecidableEq

/-- `_call_llm(system_prompt, user_prompt, temperature)` (generation.py
lines 83-108), parametrized by an oracle giving the provider's raw response
text.  The second component lists the provider requests actually issued, so
"no request was attempted" is expressible. -/
def call_llm (env : GenEnv) (st : GenState) (oracle : LLMRequest → String)
    (system_prompt user_prompt : String) (temperature : ℚ) :
    Except String (String × GenState) × List LLMRequest :=
  match ensure_client env st with
  | Except.error msg => (Except.error msg, [])
  | Except.ok (st2, _, model, provider) =>
    if provider = "openai" ∨ provider = "groq" ∨ provider = "ollama" then
      (Except.ok (pyStrip (oracle
          (LLMRequest.chatCompletions model system_prompt user_prompt temperature)), st2),
       [LLMRequest.chatCompletions model system_prompt user_prompt temperature])
    else if provider = "gemini" then
      (Except.ok (pyStrip (oracle (LLMRequest.generateContent model
          (system_prompt ++ "\n\nUSER INPUT:\n" ++ user_prompt) temperature)), st2),
       [LLMRequest.generateContent model
          (system_prompt ++ "\n\nUSER INPUT:\n" ++ user_prompt) temperature])
    else (Except.ok ("", st2), [])

/-- The set of provider names generation.py supports. -/
def supportedProvider (p : String) : Prop :=
  p = "openai" ∨ p = "groq" ∨ p = "ollama" ∨ p = "gemini"

instance (p : String) : Decidable (supportedProvider p) := by
  unfold supportedProvider
  infer_instance

/-- The credential generation.py requires for the resolved provider
(the dummy `"ollama"` key for ollama, which needs no real credential). -/
def providerKey (env : GenEnv) : Option String :=
  if providerOf env = "openai" then env.OPENAI_API_KEY
  else if providerOf env = "groq" then env.GROQ_API_KEY
  else if providerOf env = "ollama" then some "ollama"
  else env.GEMINI_API_KEY

/-- C4 (amended): with no client cached yet, an unsupported provider value,
or a supported provider (other than ollama, which needs no credential)
whose required credential is absent or empty, makes backend selection fail
with an error — raised inside the lazy `_ensure_client` on the first use of
the generation facility, before any provider request is issued (the request
trace of `_call_llm` stays empty), and never through a silent fallback. -/
theorem gen_backend_misconfig_fails_on_first_use (env : GenEnv) (st : GenState)
    (hst : st.client = none)
    (hbad : ¬ supportedProvider (providerOf env) ∨
      (supportedProvider (providerOf env) ∧ providerOf env ≠ "ollama" ∧
        falsyKey (providerKey env))) :
    (∃ msg, ensure_client env st = Except.error msg) ∧
    ∀ oracle system_prompt user_prompt temperature,
      (call_llm env st oracle system_prompt user_prompt temperature).2 = [] ∧
      ∃ msg, (call_llm env st oracle system_prompt user_prompt temperature).1 =
        Except.error msg := by
  obtain ⟨cl, mn⟩ := st
  replace hst : cl = none := hst
  subst hst
  have hmain : ∃ msg, ensure_client env ⟨none, mn⟩ = Except.error msg := by
    rcases hbad with hun | ⟨hsup, hnol, hkey⟩
    · have h1 : ¬ providerOf env = "openai" := fun h => hun (Or.inl h)
      have h2 : ¬ providerOf env = "groq" := fun h => hun (Or.inr (Or.inl h))
      have h3 : ¬ providerOf env = "ollama" := fun h => hun (Or.inr (Or.inr (Or.inl h)))
      have h4 : ¬ providerOf env = "gemini" := fun h => hun (Or.inr (Or.inr (Or.inr h)))
      have hg : get_provider_info env =
          Except.error ("Unsupported LLM_PROVIDER: " ++ providerOf env) := by
        unfold get_provider_info
        rw [if_neg h1, if_neg h2, if_neg h3, if_neg h4]
      refine ⟨"Unsupported LLM_PROVIDER: " ++ providerOf env, ?_⟩
      unfold ensure_client
      rw [hg]
    · rcases hsup with hp | hp | hp | hp
      · have hk : providerKey env = env.OPENAI_API_KEY := by
          unfold providerKey
          rw [if_pos hp]
        rw [hk] at hkey
        have hg : get_provider_info env = Except.ok
            (providerOf env, env.OPENAI_MODEL.getD "gpt-4o-mini", env.OPENAI_API_KEY) := by
          unfold get_provider_info
          rw [if_pos hp]
        refine ⟨"Missing API key for provider \x27" ++ providerOf env ++
          "\x27. Please check your .env file.", ?_⟩
        unfold ensure_client
        rw [hg]
        show (if falsyKey env.OPENAI_API_KEY ∧ providerOf env ≠ "ollama" then _ else _) = _
        rw [if_pos ⟨hkey, hnol⟩]
      · have h1 : ¬ providerOf env = "openai" := by rw [hp]; decide
        have hk : providerKey env = env.GROQ_API_KEY := by
          unfold providerKey
          rw [if_neg h1, if_pos hp]
        rw [hk] at hkey
        have hg : get_provider_info env = Except.ok
            (providerOf env, env.GROQ_MODEL.getD "llama-3.3-70b-versatile",
              env.GROQ_API_KEY) := by
          unfold get_provider_info
          rw [if_neg h1, if_pos hp]
        refine ⟨"Missing API key for provider \x27" ++ providerOf env ++
          "\x27. Please check your .env file.", ?_⟩
        unfold ensure_client
        rw [hg]
        show (if falsyKey env.GROQ_API_KEY ∧ providerOf env ≠ "ollama" then _ else _) = _
        rw [if_pos ⟨hkey, hnol⟩]
      · exact absurd hp hnol
      · have h1 : ¬ providerOf env = "openai" := by rw [hp]; decide
        have h2 : ¬ providerOf env = "groq" := by rw [hp]; decide
        have h3 : ¬ providerOf env = "ollama" := by rw [hp]; decide
        have hk : providerKey env = env.GEMINI_API_KEY := by
          unfold providerKey
          rw [if_neg h1, if_neg h2, if_neg h3]
        rw [hk] at hkey
        have hg : get_provider_info env = Except.ok
            (providerOf env, env.GEMINI_MODEL.getD "gemini-1.5-flash-latest",
              env.GEMINI_API_KEY) := by
          unfold get_provider_info
          rw [if_neg h1, if_neg h2, if_neg h3, if_pos hp]
        refine ⟨"Missing API key for provider \x27" ++ providerOf env ++
          "\x27. Please check your .env file.", ?_⟩
        unfold ensure_client
        rw [hg]
        show (if falsyKey env.GEMINI_API_KEY ∧ providerOf env ≠ "ollama" then _ else _) = _
        rw [if_pos ⟨hkey, hnol⟩]
  refine ⟨hmain, ?_⟩
  intro oracle system_prompt user_prompt temperature
  obtain ⟨msg, hmsg⟩ := hmain
  unfold call_llm
  rw [hmsg]
  exact ⟨rfl, msg, rfl⟩

/-- An environment selecting an unsupported provider. -/
def badEnvC4 : GenEnv := ⟨some "aws", none, none, none, none, none, none, none, none⟩

/-- An environment selecting groq with no credential set. -/
def groqNoKeyEnvC4 : GenEnv := ⟨some "groq", none, none, none, none, none, none, none, none⟩

/-- C4 (counterexample to the claim as stated): the claim places the
failure for an unsupported provider or a missing credential at construction
time, "never lazily on first use".  In generation.py there is no failing
construction step: module initialization (lines 10-12, `genModuleInit`)
reads no configuration and unconditionally succeeds with an empty cached
state, and the errors for `LLM_PROVIDER=aws` or for groq without
`GROQ_API_KEY` arise only inside the lazily-invoked `_ensure_client`, i.e.
on the first generation request (also as `ValueError`, not a dedicated
`ConfigurationError`). -/
theorem gen_backend_validation_is_lazy :
    genModuleInit = { client := none, model_name := none } ∧
    ensure_client badEnvC4 genModuleInit =
      Except.error "Unsupported LLM_PROVIDER: aws" ∧
    (call_llm badEnvC4 genModuleInit (fun _ => "response") "sys" "user" (2/10)).1 =
      Except.error "Unsupported LLM_PROVIDER: aws" ∧
    ensure_client groqNoKeyEnvC4 genModuleInit =
      Except.error "Missing API key for provider \x27groq\x27. Please check your .env file." :=
  ⟨rfl, rfl, rfl, rfl⟩

/-- Witness for the amended C4 at a concrete input. -/
theorem gen_backend_misconfig_fails_on_first_use_witness :
    (∃ msg, ensure_client badEnvC4 genModuleInit = Except.error msg) ∧
    ∀ oracle system_prompt user_prompt temperature,
      (call_llm badEnvC4 genModuleInit oracle system_prompt user_prompt temperature).2 = [] ∧
      ∃ msg, (call_llm badEnvC4 genModuleInit oracle system_prompt user_prompt
        temperature).1 = Except.error msg :=
  gen_backend_misconfig_fails_on_first_use badEnvC4 genModuleInit rfl (Or.inl (by decide))

/-! ### 4. Storage (`src/storage.py`)

The ChromaDB collection is modelled as the list of stored records in
insertion order; `collection.get(where={"call_id": ...})` is a metadata
filter, `collection.delete(ids=...)` removes the records with those ids,
and `collection.add(...)` appends.  `ingest_transcript` is parametrized by
the already-read, `.strip()`-ed file text and the file stem (the
file-system read on lines 39-44 is outside the storage contract). -/

/-- The metadata dict stored with each chunk (storage.py lines 62-68). -/
structure ChunkMeta where
  call_id : String
  call_title : String
  chunk_index : Nat
  start_char : Nat
  end_char : Nat
deriving Repr, DecidableEq

/-- One record of the ChromaDB collection. -/
structure ChromaEntry where
  id : String
  document : String
  meta : ChunkMeta
deriving Repr, DecidableEq

/-- The collection state. -/
abbrev ChromaCollection := List ChromaEntry

/-- `re.sub(r"[^a-zA-Z0-9_-]", "_", call_title)` applied per character
(storage.py line 47). -/
def sanitizeChar (c : Char) : Char :=
  if c.isAlphanum || c = '_' || c = '-' then c else '_'

/-- The call_id derived from the file stem (storage.py line 47). -/
def sanitize (s : String) : String := String.mk (s.data.map sanitizeChar)

/-- `CHUNK_SIZE` (storage.py line 15). -/
def CHUNK_SIZE : Nat := 400

/-- `CHUNK_OVERLAP` (storage.py line 16). -/
def CHUNK_OVERLAP : Nat := 80

/-- `collection.get(where={"call_id": call_id})["ids"]`
(storage.py line 52). -/
def existingIdsFor (st : ChromaCollection) (call_id : String) : List String :=
  (st.filter (fun e => e.meta.call_id == call_id)).map (fun e => e.id)

/-- `collection.delete(ids=ids)` (storage.py line 54). -/
def deleteIds (st : ChromaCollection) (ids : List String) : ChromaCollection :=
  st.filter (fun e => !(ids.contains e.id))

/-- The records built by the `for idx, chunk_data in enumerate(raw_chunks)`
loop and passed to `collection.add` (storage.py lines 57-71). -/
def buildEntries (call_id call_title : String) (raw_chunks : List Chunk) : List ChromaEntry :=
  (enumerateFrom 0 raw_chunks).map (fun p =>
    { id := call_id ++ "__" ++ Nat.repr p.1,
      document := String.mk p.2.text,
      meta := { call_id := call_id, call_title := call_title, chunk_index := p.1,
                start_char := p.2.start, end_char := p.2.«end» } })

/-- `ingest_transcript` (storage.py lines 33-72) acting on an explicit
collection state: delete every existing chunk of the derived call_id, chunk
the text, insert the new records; return the new state and the call_id.
`chunk_text` always terminates here because `CHUNK_OVERLAP < CHUNK_SIZE`
(see `chunkLoop_isSome`); `.getD []` merely discharges the `Option`. -/
def ingest_transcript (st : ChromaCollection) (call_title : String) (raw_text : List Char) :
    ChromaCollection × String :=
  ((if (existingIdsFor st (sanitize call_title)).isEmpty then st
    else deleteIds st (existingIdsFor st (sanitize call_title))) ++
    buildEntries (sanitize call_title) call_title
      ((chunk_text raw_text CHUNK_SIZE CHUNK_OVERLAP).getD []),
   sanitize call_title)

/-- Python string comparison `a <= b`: lexicographic on code points.
(Lean\x27s built-in `String.le` is the same order but is implemented on
byte positions and does not reduce in the kernel, so the order is modelled
directly on the character lists.) -/
def strLeb : List Char → List Char → Bool
  | [], _ => true
  | _ :: _, [] => false
  | a :: s, b :: t =>
    if a.toNat < b.toNat then true
    else if b.toNat < a.toNat then false
    else strLeb s t

/-- Python `a <= b` on strings, as a proposition. -/
def pyStrLe (a b : String) : Prop := strLeb a.data b.data = true

instance (a b : String) : Decidable (pyStrLe a b) := by
  unfold pyStrLe
  infer_instance

theorem strLeb_refl (s : List Char) : strLeb s s = true := by
  induction s with
  | nil => rfl
  | cons a t ih => simp [strLeb, ih]

theorem strLeb_cons_iff (a b : Char) (s t : List Char) :
    strLeb (a :: s) (b :: t) = true ↔
      a.toNat < b.toNat ∨ (a.toNat = b.toNat ∧ strLeb s t = true) := by
  simp only [strLeb]
  split
  · next h =>
    constructor
    · intro _
      exact Or.inl h
    · intro _
      rfl
  · next h =>
    split
    · next h2 =>
      constructor
      · intro hF
        exact absurd hF (by decide)
      · intro hor
        rcases hor with h3 | ⟨h3, _⟩ <;> omega
    · next h2 =>
      constructor
      · intro hs
        exact Or.inr ⟨by omega, hs⟩
      · intro hor
        rcases hor with h3 | ⟨_, hs⟩
        · omega
        · exact hs

theorem strLeb_total (s : List Char) : ∀ t, strLeb s t = true ∨ strLeb t s = true := by
  induction s with
  | nil => intro t; left; rfl
  | cons a s ih =>
    intro t
    cases t with
    | nil => right; rfl
    | cons b t =>
      rw [strLeb_cons_iff, strLeb_cons_iff]
      rcases Nat.lt_trichotomy a.toNat b.toNat with h | h | h
      · exact Or.inl (Or.inl h)
      · rcases ih t with h2 | h2
        · exact Or.inl (Or.inr ⟨h, h2⟩)
        · exact Or.inr (Or.inr ⟨h.symm, h2⟩)
      · exact Or.inr (Or.inl h)

theorem strLeb_trans (s : List Char) :
    ∀ t u, strLeb s t = true → strLeb t u = true → strLeb s u = true := by
  induction s with
  | nil => intro t u _ _; rfl
  | cons a s ih =>
    intro t u hst htu
    cases t with
    | nil => simp [strLeb] at hst
    | cons b t =>
      cases u with
      | nil => simp [strLeb] at htu
      | cons c u =>
        rw [strLeb_cons_iff] at hst htu ⊢
        rcases hst with h1 | ⟨h1, hs1⟩ <;> rcases htu with h2 | ⟨h2, hs2⟩
        · exact Or.inl (by omega)
        · exact Or.inl (by omega)
        · exact Or.inl (by omega)
        · exact Or.inr ⟨by omega, ih t u hs1 hs2⟩

theorem strLeb_antisymm (s : List Char) :
    ∀ t, strLeb s t = true → strLeb t s = true → s = t := by
  induction s with
  | nil =>
    intro t _ hts
    cases t with
    | nil => rfl
    | cons b t => simp [strLeb] at hts
  | cons a s ih =>
    intro t hst hts
    cases t with
    | nil => simp [strLeb] at hst
    | cons b t =>
      rw [strLeb_cons_iff] at hst hts
      have hn : a.toNat = b.toNat := by
        rcases hst with h1 | ⟨h1, _⟩ <;> rcases hts with h2 | ⟨h2, _⟩ <;> omega
      have hch : a = b := Char.ext (UInt32.ext hn)
      rcases hst with h1 | ⟨_, hs1⟩
      · omega
      · rcases hts with h2 | ⟨_, hs2⟩
        · omega
        · rw [hch, ih t hs1 hs2]

instance : IsTotal String pyStrLe :=
  ⟨fun a b => strLeb_total a.data b.data⟩

instance : IsTrans String pyStrLe :=
  ⟨fun a b c => strLeb_trans a.data b.data c.data⟩

instance : IsRefl String pyStrLe :=
  ⟨fun a => strLeb_refl a.data⟩

instance : IsAntisymm String pyStrLe :=
  ⟨fun a b h1 h2 => by
    have := strLeb_antisymm a.data b.data h1 h2
    cases a
    cases b
    simp only at this
    rw [this]⟩

/-- `get_call_ids()` (storage.py lines 75-86): deduplicated, sorted call
ids.  The Python code keeps the first occurrence of each id and then sorts;
after deduplication the result has no equal elements, so which duplicate
survives is unobservable and the standard `List.dedup` models the
seen-set loop.  `sorted(...)` on Python strings is code-point
lexicographic, modelled by `pyStrLe`. -/
def get_call_ids (st : ChromaCollection) : List String :=
  List.insertionSort pyStrLe ((st.map (fun e => e.meta.call_id)).dedup)

/-- `get_latest_call_id()` (storage.py lines 89-92):
`ids[-1] if ids else None`. -/
def get_latest_call_id (st : ChromaCollection) : Option String :=
  (get_call_ids st).getLast?

/-- The `TranscriptChunk` built from one stored record (storage.py lines
142-152). -/
def entryToChunk (e : ChromaEntry) : TranscriptChunk :=
  { chunk_id := e.id, call_id := e.meta.call_id, call_title := e.meta.call_title,
    chunk_index := e.meta.chunk_index, text := e.document,
    start_char := e.meta.start_char, end_char := e.meta.end_char }

/-- `get_all_chunks_for_call(call_id)` (storage.py lines 134-153): all
records with the given call_id, as `TranscriptChunk`s, sorted by
`chunk_index`. -/
def get_all_chunks_for_call (st : ChromaCollection) (call_id : String) :
    List TranscriptChunk :=
  List.insertionSort (fun a b => a.chunk_index ≤ b.chunk_index)
    ((st.filter (fun e => e.meta.call_id == call_id)).map entryToChunk)

/-- The `TranscriptChunk` that ingestion must leave in the store for the
`p.1`-th emitted chunk `p.2`. -/
def expectedChunkRecord (call_id call_title : String) (p : Nat × Chunk) : TranscriptChunk :=
  { chunk_id := call_id ++ "__" ++ Nat.repr p.1, call_id := call_id,
    call_title := call_title, chunk_index := p.1, text := String.mk p.2.text,
    start_char := p.2.start, end_char := p.2.«end» }

/-- The `TranscriptChunk`s that ingesting text `t` under `call_id` must
leave in the store: one per chunk of `chunk_text(t)`, indexed 0, 1, ... in
emission order. -/
def expectedChunks (call_id call_title : String) (t : List Char) : List TranscriptChunk :=
  (enumerateFrom 0 ((chunk_text t CHUNK_SIZE CHUNK_OVERLAP).getD [])).map
    (expectedChunkRecord call_id call_title)

/-- Well-formedness of a collection state: every stored id has the shape
`f"{call_id}__{chunk_index}"` the ingestion pipeline gives it (storage.py
line 60).  Every state reachable by `ingest_transcript` from the empty
collection satisfies this. -/
def CollectionWF (st : ChromaCollection) : Prop :=
  ∀ e ∈ st, e.id = e.meta.call_id ++ "__" ++ Nat.repr e.meta.chunk_index

/-! Digit-string facts: `Nat.repr` produces only digit characters, hence an
id `call_id ++ "__" ++ digits` determines `call_id`. -/

theorem digitChar_isDigit (n : Nat) (h : n < 10) : (Nat.digitChar n).isDigit = true := by
  interval_cases n <;> decide

theorem toDigitsCore_digits (fuel : Nat) :
    ∀ (n : Nat) (acc : List Char), (∀ c ∈ acc, c.isDigit = true) →
      ∀ c ∈ Nat.toDigitsCore 10 fuel n acc, c.isDigit = true := by
  induction fuel with
  | zero =>
    intro n acc hacc c hc
    exact hacc c hc
  | succ fuel ih =>
    intro n acc hacc c hc
    simp only [Nat.toDigitsCore] at hc
    have hd : ∀ x ∈ Nat.digitChar (n % 10) :: acc, x.isDigit = true := by
      intro x hx
      rcases List.mem_cons.mp hx with hx | hx
      · subst hx
        exact digitChar_isDigit _ (Nat.mod_lt _ (by omega))
      · exact hacc x hx
    split at hc
    · exact hd c hc
    · exact ih (n / 10) (Nat.digitChar (n % 10) :: acc) hd c hc

theorem repr_all_digits (n : Nat) : ∀ c ∈ (Nat.repr n).data, c.isDigit = true := by
  intro c hc
  exact toDigitsCore_digits (n + 1) n [] (by intro c hc; cases hc) c hc

theorem digits_prefix_inj (d1 : List Char) :
    ∀ (d2 c1 c2 : List Char), (∀ c ∈ d1, c.isDigit = true) →
      (∀ c ∈ d2, c.isDigit = true) →
      d1 ++ '_' :: '_' :: c1 = d2 ++ '_' :: '_' :: c2 → d1 = d2 ∧ c1 = c2 := by
  induction d1 with
  | nil =>
    intro d2 c1 c2 h1 h2 heq
    cases d2 with
    | nil => simpa using heq
    | cons b d2' =>
      rw [List.nil_append, List.cons_append] at heq
      have hb : '_' = b := by injection heq
      have := h2 b (List.mem_cons_self _ _)
      rw [← hb] at this
      exact absurd this (by decide)
  | cons a d1' ih =>
    intro d2 c1 c2 h1 h2 heq
    cases d2 with
    | nil =>
      rw [List.nil_append, List.cons_append] at heq
      have ha : a = '_' := by injection heq
      have := h1 a (List.mem_cons_self _ _)
      rw [ha] at this
      exact absurd this (by decide)
    | cons b d2' =>
      rw [List.cons_append, List.cons_append] at heq
      injection heq with hab htail
      obtain ⟨hd, hc⟩ := ih d2' c1 c2 (fun c hc => h1 c (List.mem_cons_of_mem _ hc))
        (fun c hc => h2 c (List.mem_cons_of_mem _ hc)) htail
      subst hab hd hc
      exact ⟨rfl, rfl⟩

/-- Two well-formed chunk ids can be equal only for the same call_id. -/
theorem chunkId_call_eq (cid1 cid2 : String) (i j : Nat)
    (h : cid1 ++ "__" ++ Nat.repr i = cid2 ++ "__" ++ Nat.repr j) : cid1 = cid2 := by
  have hdata : cid1.data ++ '_' :: '_' :: (Nat.repr i).data =
      cid2.data ++ '_' :: '_' :: (Nat.repr j).data := by
    have := congrArg String.data h
    simpa [String.data_append] using this
  have hrev : (Nat.repr i).data.reverse ++ '_' :: '_' :: cid1.data.reverse =
      (Nat.repr j).data.reverse ++ '_' :: '_' :: cid2.data.reverse := by
    have := congrArg List.reverse hdata
    simpa [List.reverse_append] using this
  obtain ⟨_, hc⟩ := digits_prefix_inj ((Nat.repr i).data.reverse) ((Nat.repr j).data.reverse)
    (cid1.data.reverse) (cid2.data.reverse)
    (fun c hc => repr_all_digits i c (List.mem_reverse.mp hc))
    (fun c hc => repr_all_digits j c (List.mem_reverse.mp hc)) hrev
  have : cid1.data = cid2.data := by
    have := congrArg List.reverse hc
    simpa using this
  cases cid1
  cases cid2
  simp only at this
  rw [this]

theorem buildEntries_fields (cid title : String) (chunks : List Chunk) :
    ∀ e ∈ buildEntries cid title chunks,
      e.meta.call_id = cid ∧ e.id = cid ++ "__" ++ Nat.repr e.meta.chunk_index := by
  intro e he
  obtain ⟨p, hp, rfl⟩ := List.mem_map.mp he
  exact ⟨rfl, rfl⟩

theorem enumerateFrom_fst_le {α : Type} (s : Nat) (l : List α) :
    ∀ p ∈ enumerateFrom s l, s ≤ p.1 := by
  induction l generalizing s with
  | nil => intro p hp; cases hp
  | cons a t ih =>
    intro p hp
    rcases List.mem_cons.mp hp with hp | hp
    · subst hp
      exact Nat.le_refl s
    · have := ih (s + 1) p hp
      omega

theorem enumerateFrom_pairwise {α : Type} (s : Nat) (l : List α) :
    (enumerateFrom s l).Pairwise (fun p q => p.1 ≤ q.1) := by
  induction l generalizing s with
  | nil => exact List.Pairwise.nil
  | cons a t ih =>
    refine List.Pairwise.cons ?_ (ih (s + 1))
    intro q hq
    have := enumerateFrom_fst_le (s + 1) t q hq
    omega

theorem enumerateFrom_map_fst {α : Type} (s : Nat) (l : List α) :
    (enumerateFrom s l).map Prod.fst = List.range' s l.length := by
  induction l generalizing s with
  | nil => rfl
  | cons a t ih => simp [enumerateFrom, ih, List.range'_succ]

/-- A nonempty stripped text always produces at least one chunk. -/
theorem chunk_text_getD_ne_nil (t : List Char) (ht : t ≠ []) :
    (chunk_text t CHUNK_SIZE CHUNK_OVERLAP).getD [] ≠ [] := by
  have hne : ¬ t.isEmpty := by simpa [List.isEmpty_iff] using ht
  have hpos : 0 < t.length := List.length_pos.mpr ht
  have hsome := chunkLoop_isSome t CHUNK_SIZE CHUNK_OVERLAP (by decide) (t.length + 1) 0
    (by omega)
  rcases Option.isSome_iff_exists.mp hsome with ⟨l, hl⟩
  have hl2 := hl
  simp only [chunkLoop, if_pos hpos, Option.map_eq_some'] at hl2
  obtain ⟨rest, _, hl3⟩ := hl2
  unfold chunk_text
  rw [if_neg hne, hl]
  simp only [Option.getD_some]
  rw [← hl3]
  simp

theorem mem_get_call_ids (st : ChromaCollection) (cid : String) :
    cid ∈ get_call_ids st ↔ ∃ e ∈ st, e.meta.call_id = cid := by
  unfold get_call_ids
  rw [List.mem_insertionSort, List.mem_dedup]
  exact List.mem_map

theorem get_call_ids_sorted (st : ChromaCollection) :
    (get_call_ids st).Sorted pyStrLe :=
  List.sorted_insertionSort _ _

theorem get_call_ids_nodup (st : ChromaCollection) : (get_call_ids st).Nodup :=
  (List.perm_insertionSort _ _).nodup_iff.mpr (List.nodup_dedup _)

theorem get_call_ids_eq_of_mem_iff (s1 s2 : ChromaCollection)
    (h : ∀ cid, (∃ e ∈ s1, e.meta.call_id = cid) ↔ ∃ e ∈ s2, e.meta.call_id = cid) :
    get_call_ids s1 = get_call_ids s2 := by
  apply List.eq_of_perm_of_sorted ?_ (get_call_ids_sorted s1) (get_call_ids_sorted s2)
  apply (List.perm_ext_iff_of_nodup (get_call_ids_nodup s1) (get_call_ids_nodup s2)).mpr
  intro cid
  rw [mem_get_call_ids, mem_get_call_ids]
  exact h cid

theorem sorted_le_getLast (l : List String) (hs : l.Sorted pyStrLe) :
    ∀ x ∈ l, ∀ y, l.getLast? = some y → pyStrLe x y := by
  induction l with
  | nil => intro x hx; cases hx
  | cons a t ih =>
    intro x hx y hy
    cases t with
    | nil =>
      simp at hx hy
      subst hx hy
      exact strLeb_refl x.data
    | cons b t2 =>
      rw [List.getLast?_cons_cons] at hy
      rcases List.mem_cons.mp hx with hx | hx
      · subst hx
        exact List.rel_of_sorted_cons hs y (List.mem_of_getLast?_eq_some hy)
      · exact ih hs.of_cons x hx y hy

/-- C10: `get_latest_call_id` returns `None` exactly when no call is
stored, and otherwise the alphabetically-last call_id among all stored
entries — the maximum in lexicographic string order, independent of
ingestion order or time. -/
theorem get_latest_call_id_spec (st : ChromaCollection) :
    (get_latest_call_id st = none ↔ st = []) ∧
    ∀ cid, get_latest_call_id st = some cid →
      (∃ e ∈ st, e.meta.call_id = cid) ∧ ∀ e ∈ st, pyStrLe e.meta.call_id cid := by
  constructor
  · unfold get_latest_call_id
    rw [List.getLast?_eq_none_iff]
    constructor
    · intro h
      cases st with
      | nil => rfl
      | cons e t =>
        exfalso
        have hm : e.meta.call_id ∈ get_call_ids (e :: t) :=
          (mem_get_call_ids (e :: t) _).mpr ⟨e, List.mem_cons_self _ _, rfl⟩
        rw [h] at hm
        cases hm
    · intro h
      subst h
      rfl
  · intro cid hcid
    unfold get_latest_call_id at hcid
    have hmem : cid ∈ get_call_ids st := List.mem_of_getLast?_eq_some hcid
    refine ⟨(mem_get_call_ids st cid).mp hmem, ?_⟩
    intro e he
    have hm : e.meta.call_id ∈ get_call_ids st :=
      (mem_get_call_ids st _).mpr ⟨e, he, rfl⟩
    exact sorted_le_getLast _ (get_call_ids_sorted st) _ hm cid hcid

/-- Witness for C10: call "b" was ingested before call "a" (it sits earlier
in the store), yet the "latest" call is the alphabetically-last "b", not
the most recently added "a". -/
theorem get_latest_call_id_spec_witness :
    (∃ e ∈ ([⟨"b__0", "docB", ⟨"b", "b", 0, 0, 4⟩⟩,
        ⟨"a__0", "docA", ⟨"a", "a", 0, 0, 4⟩⟩] : ChromaCollection), e.meta.call_id = "b") ∧
    ∀ e ∈ ([⟨"b__0", "docB", ⟨"b", "b", 0, 0, 4⟩⟩,
        ⟨"a__0", "docA", ⟨"a", "a", 0, 0, 4⟩⟩] : ChromaCollection),
      pyStrLe e.meta.call_id "b" :=
  (get_latest_call_id_spec [⟨"b__0", "docB", ⟨"b", "b", 0, 0, 4⟩⟩,
    ⟨"a__0", "docA", ⟨"a", "a", 0, 0, 4⟩⟩]).2 "b" (by decide)

theorem filter_buildEntries_self (cid title : String) (chunks : List Chunk) :
    (buildEntries cid title chunks).filter (fun e => e.meta.call_id == cid) =
      buildEntries cid title chunks := by
  rw [List.filter_eq_self]
  intro e he
  have h1 := (buildEntries_fields cid title chunks e he).1
  simp [h1]

theorem mem_deleteIds (st : ChromaCollection) (ids : List String) (e : ChromaEntry) :
    e ∈ deleteIds st ids ↔ e ∈ st ∧ ids.contains e.id = false := by
  unfold deleteIds
  rw [List.mem_filter]
  simp

theorem buildEntries_ne_nil (cid title : String) (chunks : List Chunk) (h : chunks ≠ []) :
    buildEntries cid title chunks ≠ [] := by
  cases chunks with
  | nil => exact absurd rfl h
  | cons c t => simp [buildEntries, enumerateFrom]

/-- After an ingestion, the records carrying the ingested call_id are
exactly the freshly built ones: `ingest_transcript` deletes every earlier
record of that call before inserting. -/
theorem ingest_filter_call (st : ChromaCollection) (title : String) (t : List Char) :
    ((ingest_transcript st title t).1).filter
        (fun e => e.meta.call_id == sanitize title) =
      buildEntries (sanitize title) title
        ((chunk_text t CHUNK_SIZE CHUNK_OVERLAP).getD []) := by
  unfold ingest_transcript
  dsimp only
  rw [List.filter_append, filter_buildEntries_self]
  have hnil : (if (existingIdsFor st (sanitize title)).isEmpty then st
      else deleteIds st (existingIdsFor st (sanitize title))).filter
        (fun e => e.meta.call_id == sanitize title) = [] := by
    split
    · next hE =>
      rw [List.filter_eq_nil_iff]
      intro e he hbeq
      rw [List.isEmpty_iff] at hE
      unfold existingIdsFor at hE
      rw [List.map_eq_nil_iff] at hE
      have hmem : e ∈ st.filter (fun e => e.meta.call_id == sanitize title) :=
        List.mem_filter.mpr ⟨he, hbeq⟩
      rw [hE] at hmem
      cases hmem
    · next hE =>
      rw [List.filter_eq_nil_iff]
      intro e he hbeq
      obtain ⟨hest, hcont⟩ := (mem_deleteIds st _ e).mp he
      have hmemf : e ∈ st.filter (fun e => e.meta.call_id == sanitize title) :=
        List.mem_filter.mpr ⟨hest, hbeq⟩
      have hid : e.id ∈ existingIdsFor st (sanitize title) :=
        List.mem_map.mpr ⟨e, hmemf, rfl⟩
      have htrue : (existingIdsFor st (sanitize title)).contains e.id = true :=
        List.elem_eq_true_of_mem hid
      rw [htrue] at hcont
      exact absurd hcont (by decide)
  rw [hnil, List.nil_append]

theorem map_entryToChunk_buildEntries (cid title : String) (chunks : List Chunk) :
    (buildEntries cid title chunks).map entryToChunk =
      (enumerateFrom 0 chunks).map (expectedChunkRecord cid title) := by
  unfold buildEntries
  rw [List.map_map]
  rfl

theorem expectedChunkRecords_sorted (cid title : String) (chunks : List Chunk) :
    ((enumerateFrom 0 chunks).map (expectedChunkRecord cid title)).Sorted
      (fun a b => a.chunk_index ≤ b.chunk_index) := by
  apply List.Pairwise.map (expectedChunkRecord cid title)
    (fun a b (hab : a.1 ≤ b.1) => hab)
  exact enumerateFrom_pairwise 0 chunks

theorem CollectionWF_ingest (st : ChromaCollection) (title : String) (t : List Char)
    (h : CollectionWF st) : CollectionWF (ingest_transcript st title t).1 := by
  intro e he
  unfold ingest_transcript at he
  dsimp only at he
  rcases List.mem_append.mp he with he | he
  · split at he
    · exact h e he
    · exact h e ((mem_deleteIds _ _ _).mp he).1
  · have h1 := (buildEntries_fields _ _ _ e he).1
    have h2 := (buildEntries_fields _ _ _ e he).2
    rw [h1]
    exact h2

/-- Ingesting a call whose call_id is already present in a well-formed
store leaves the set of stored call_ids unchanged, element for element. -/
theorem ingest_call_ids_iff (s : ChromaCollection) (title : String) (t : List Char)
    (hwf : CollectionWF s) (ht : t ≠ [])
    (hx : ∃ a ∈ s, a.meta.call_id = sanitize title) :
    ∀ cid, (∃ e ∈ (ingest_transcript s title t).1, e.meta.call_id = cid) ↔
      ∃ e ∈ s, e.meta.call_id = cid := by
  intro cid
  constructor
  · rintro ⟨e, he, rfl⟩
    unfold ingest_transcript at he
    dsimp only at he
    rcases List.mem_append.mp he with he | he
    · refine ⟨e, ?_, rfl⟩
      split at he
      · exact he
      · exact ((mem_deleteIds _ _ _).mp he).1
    · rw [(buildEntries_fields _ _ _ e he).1]
      exact hx
  · rintro ⟨e, he, rfl⟩
    by_cases hcid : e.meta.call_id = sanitize title
    · obtain ⟨b0, hb0⟩ := List.exists_mem_of_ne_nil _
        (buildEntries_ne_nil (sanitize title) title _ (chunk_text_getD_ne_nil t ht))
      refine ⟨b0, ?_, ?_⟩
      · unfold ingest_transcript
        dsimp only
        exact List.mem_append_right _ hb0
      · rw [(buildEntries_fields _ _ _ b0 hb0).1, hcid]
    · refine ⟨e, ?_, rfl⟩
      unfold ingest_transcript
      dsimp only
      apply List.mem_append_left
      split
      · exact he
      · rw [mem_deleteIds]
        refine ⟨he, ?_⟩
        cases hc : (existingIdsFor s (sanitize title)).contains e.id with
        | false => rfl
        | true =>
          exfalso
          have hmem : e.id ∈ existingIdsFor s (sanitize title) :=
            List.mem_of_elem_eq_true hc
          obtain ⟨a, haf, haid⟩ := List.mem_map.mp hmem
          have hain := List.mem_filter.mp haf
          have hacall : a.meta.call_id = sanitize title := by simpa using hain.2
          have hEid := hwf e he
          have hAid := hwf a hain.1
          have hsame : a.meta.call_id = e.meta.call_id :=
            chunkId_call_eq _ _ a.meta.chunk_index e.meta.chunk_index
              (by rw [← hAid, haid, hEid])
          exact hcid (by rw [← hsame, hacall])

/-- C3: re-ingestion replaces wholesale.  After ingesting a call (text
`tA`) and re-ingesting the same call (text `tB`), the call_id is unchanged;
`get_all_chunks_for_call` returns exactly the chunks of the second
ingestion (nothing derived from `tA` remains), whose `chunk_index` values
are sequential starting at 0; and `get_call_ids` of the store is unchanged
by the re-ingestion.  The store is assumed well-formed (ids of the shape
the pipeline creates, `CollectionWF`), and both transcripts nonempty so
that both chunk sets are nonempty. -/
theorem ingest_replace_semantics (st : ChromaCollection) (title : String)
    (tA tB : List Char) (hwf : CollectionWF st) (hA : tA ≠ []) (hB : tB ≠ []) :
    (ingest_transcript (ingest_transcript st title tA).1 title tB).2 =
      (ingest_transcript st title tA).2 ∧
    get_all_chunks_for_call (ingest_transcript (ingest_transcript st title tA).1 title tB).1
        (ingest_transcript st title tA).2 =
      expectedChunks (sanitize title) title tB ∧
    (expectedChunks (sanitize title) title tB).map (fun c => c.chunk_index) =
      List.range (((chunk_text tB CHUNK_SIZE CHUNK_OVERLAP).getD []).length) ∧
    get_call_ids (ingest_transcript (ingest_transcript st title tA).1 title tB).1 =
      get_call_ids (ingest_transcript st title tA).1 := by
  have hwf1 : CollectionWF (ingest_transcript st title tA).1 :=
    CollectionWF_ingest st title tA hwf
  refine ⟨rfl, ?_, ?_, ?_⟩
  · unfold get_all_chunks_for_call
    have hx : (ingest_transcript st title tA).2 = sanitize title := rfl
    rw [hx, ingest_filter_call (ingest_transcript st title tA).1 title tB,
      map_entryToChunk_buildEntries,
      List.Sorted.insertionSort_eq (expectedChunkRecords_sorted _ _ _)]
    rfl
  · unfold expectedChunks
    rw [List.map_map]
    have hcomp : ((fun c : TranscriptChunk => c.chunk_index) ∘
        expectedChunkRecord (sanitize title) title) = Prod.fst := rfl
    rw [hcomp, enumerateFrom_map_fst, List.range_eq_range']
  · apply get_call_ids_eq_of_mem_iff
    have hAne : ∃ a ∈ (ingest_transcript st title tA).1,
        a.meta.call_id = sanitize title := by
      obtain ⟨a0, ha0⟩ := List.exists_mem_of_ne_nil _
        (buildEntries_ne_nil (sanitize title) title _ (chunk_text_getD_ne_nil tA hA))
      refine ⟨a0, ?_, (buildEntries_fields _ _ _ a0 ha0).1⟩
      unfold ingest_transcript
      dsimp only
      exact List.mem_append_right _ ha0
    exact ingest_call_ids_iff (ingest_transcript st title tA).1 title tB hwf1 hB hAne

/-- Witness for C3 at a concrete input: empty initial store, the call
re-ingested with a different text. -/
theorem ingest_replace_semantics_witness :
    (ingest_transcript (ingest_transcript [] "demo call" ['h', 'i']).1 "demo call"
        ['y', 'o', 'u']).2 =
      (ingest_transcript [] "demo call" ['h', 'i']).2 ∧
    get_all_chunks_for_call
        (ingest_transcript (ingest_transcript [] "demo call" ['h', 'i']).1 "demo call"
          ['y', 'o', 'u']).1
        (ingest_transcript [] "demo call" ['h', 'i']).2 =
      expectedChunks (sanitize "demo call") "demo call" ['y', 'o', 'u'] ∧
    (expectedChunks (sanitize "demo call") "demo call" ['y', 'o', 'u']).map
        (fun c => c.chunk_index) =
      List.range (((chunk_text ['y', 'o', 'u'] CHUNK_SIZE CHUNK_OVERLAP).getD []).length) ∧
    get_call_ids (ingest_transcript (ingest_transcript [] "demo call" ['h', 'i']).1
        "demo call" ['y', 'o', 'u']).1 =
      get_call_ids (ingest_transcript [] "demo call" ['h', 'i']).1 :=
  ingest_replace_semantics [] "demo call" ['h', 'i'] ['y', 'o', 'u']
    (by intro e he; cases he) (by decide) (by decide)
